import Mathlib

/-!
Verification of the garmin-connect-cli output-projection and
context-aggregation core.

The data model follows §3 of the design spec: a `Record` is a mapping from
string keys to scalar, null, nested-mapping or sequence values; a
`RecordSet` is a single Record or an ordered sequence of Records.  Text is
modelled as `List Char` so that "byte-identical output" and "number of
lines" are directly expressible.  Machine floats do not occur in any
claim; numeric scalars are modelled as integers.
-/

namespace GCli

/-- Text is a list of characters. -/
abbrev Chars := List Char

/-- Left brace character (written via its code point). -/
def lbrace : Char := Char.ofNat 123

/-- Right brace character (written via its code point). -/
def rbrace : Char := Char.ofNat 125

/-- A JSON-like structured value: null, boolean, integer scalar, string,
array, or object (an ordered association list, as Python dicts preserve
insertion order). -/
inductive JsonVal where
  | null : JsonVal
  | bool (b : Bool) : JsonVal
  | num (n : Int) : JsonVal
  | str (s : Chars) : JsonVal
  | arr (xs : List JsonVal) : JsonVal
  | obj (fs : List (Chars × JsonVal)) : JsonVal

/-- A Record: an ordered association list from string keys to values. -/
abbrev Record := List (Chars × JsonVal)

/-- First value bound to a key in a Record (Python dict lookup). -/
def getKey (r : Record) (k : Chars) : Option JsonVal :=
  match r with
  | [] => none
  | (k', v) :: rest => if k' = k then some v else getKey rest k

/-- Python `dict.get`: the bound value, or None when the key is absent. -/
def dget (r : Record) (k : Chars) : JsonVal :=
  (getKey r k).getD .null

/-- Python truthiness of a value: None, False, 0, "", [] and {} are falsy. -/
def truthy : JsonVal → Bool
  | .null => false
  | .bool b => b
  | .num n => n != 0
  | .str s => !s.isEmpty
  | .arr xs => !xs.isEmpty
  | .obj fs => !fs.isEmpty

/-- Structural size of a value, used as parsing fuel. -/
def jsize : JsonVal → Nat
  | .null => 1
  | .bool _ => 1
  | .num _ => 1
  | .str _ => 1
  | .arr xs => jsizeL xs + 1
  | .obj fs => jsizeO fs + 1
where
  /-- Size of an array's element list. -/
  jsizeL : List JsonVal → Nat
    | [] => 1
    | x :: xs => jsize x + jsizeL xs + 1
  /-- Size of an object's field list. -/
  jsizeO : List (Chars × JsonVal) → Nat
    | [] => 1
    | (_, v) :: fs => jsize v + jsizeO fs + 1

/-- Decimal digit character for a digit value below ten. -/
def digitCh (d : Nat) : Char := Char.ofNat (48 + d)

/-- Big-endian decimal digit characters of a positive number, with fuel
bounding the number of digits (fuel `n` itself always suffices). -/
def natCharsAux : Nat → Nat → Chars
  | 0, _ => []
  | fuel + 1, n => if n = 0 then [] else natCharsAux fuel (n / 10) ++ [digitCh (n % 10)]

/-- Decimal rendering of a natural number. -/
def natChars (n : Nat) : Chars :=
  if n = 0 then ['0'] else natCharsAux n n

/-- Decimal rendering of an integer. -/
def intChars (n : Int) : Chars :=
  if n < 0 then '-' :: natChars n.natAbs else natChars n.toNat

/-- JSON string escaping for one character.  The double quote, backslash,
newline, tab and carriage return are escaped; the model's strings carry no
other control characters worth distinguishing. -/
def escCh (c : Char) : Chars :=
  if c = '"' then ['\\', '"']
  else if c = '\\' then ['\\', '\\']
  else if c = '\n' then ['\\', 'n']
  else if c = '\t' then ['\\', 't']
  else if c = '\r' then ['\\', 'r']
  else [c]

/-- JSON string escaping. -/
def escChars : Chars → Chars
  | [] => []
  | c :: cs => escCh c ++ escChars cs

/-- A quoted, escaped JSON string literal. -/
def renderStr (s : Chars) : Chars :=
  '"' :: escChars s ++ ['"']

mutual

/-- Modelled from the spec: the JSON text serialization of the absent
output module, in compact form (the spec's pretty-printing whitespace is
presentational only).  Strings are quoted and escaped, so a rendered
value never contains a raw newline. -/
def renderVal : JsonVal → Chars
  | .null => 'n' :: 'u' :: 'l' :: 'l' :: []
  | .bool true => 't' :: 'r' :: 'u' :: 'e' :: []
  | .bool false => 'f' :: 'a' :: 'l' :: 's' :: 'e' :: []
  | .num n => intChars n
  | .str s => renderStr s
  | .arr xs => '[' :: renderArr xs ++ [']']
  | .obj fs => lbrace :: renderObj fs ++ [rbrace]

/-- Comma-separated rendering of array elements. -/
def renderArr : List JsonVal → Chars
  | [] => []
  | [x] => renderVal x
  | x :: xs => renderVal x ++ ',' :: renderArr xs

/-- Comma-separated rendering of object fields. -/
def renderObj : List (Chars × JsonVal) → Chars
  | [] => []
  | [(k, v)] => renderStr k ++ ':' :: renderVal v
  | (k, v) :: fs => renderStr k ++ ':' :: renderVal v ++ ',' :: renderObj fs

end

/-- Strip an expected prefix from the input, returning the remainder. -/
def stripPre : Chars → Chars → Option Chars
  | [], cs => some cs
  | _ :: _, [] => none
  | p :: ps, c :: cs => if c = p then stripPre ps cs else none

/-- Unescape one escaped character of a JSON string body. -/
def unescCh (c : Char) : Option Char :=
  if c = '"' then some '"'
  else if c = '\\' then some '\\'
  else if c = 'n' then some '\n'
  else if c = 't' then some '\t'
  else if c = 'r' then some '\r'
  else none

/-- Parse the body of a JSON string literal after the opening quote,
up to and including the closing quote. -/
def parseStrBody : Chars → Option (Chars × Chars)
  | [] => none
  | c :: rest =>
    if c = '"' then some ([], rest)
    else if c = '\\' then
      match rest with
      | [] => none
      | e :: rest2 =>
        match unescCh e with
        | none => none
        | some u =>
          match parseStrBody rest2 with
          | none => none
          | some (s, r) => some (u :: s, r)
    else
      match parseStrBody rest with
      | none => none
      | some (s, r) => some (c :: s, r)

/-- Numeric value of a run of decimal digit characters. -/
def digitsVal (cs : Chars) : Nat :=
  cs.foldl (fun a c => 10 * a + (c.toNat - 48)) 0

/-- Parse a nonempty run of decimal digits. -/
def parseNatChars (cs : Chars) : Option (Nat × Chars) :=
  let ds := cs.takeWhile Char.isDigit
  if ds.isEmpty then none else some (digitsVal ds, cs.dropWhile Char.isDigit)

mutual

/-- Fuel-bounded recursive-descent parser for compact JSON values: the
"re-parsing as structured data" the testable properties of the spec
speak of.  `jsize v + 1` fuel always suffices for a rendered `v`. -/
def parseVal : Nat → Chars → Option (JsonVal × Chars)
  | 0, _ => none
  | _ + 1, [] => none
  | f + 1, c :: rest =>
    if c = 'n' then (stripPre ('u' :: 'l' :: 'l' :: []) rest).map ((JsonVal.null, ·))
    else if c = 't' then (stripPre ('r' :: 'u' :: 'e' :: []) rest).map ((JsonVal.bool true, ·))
    else if c = 'f' then
      (stripPre ('a' :: 'l' :: 's' :: 'e' :: []) rest).map ((JsonVal.bool false, ·))
    else if c = '"' then (parseStrBody rest).map (fun p => (JsonVal.str p.1, p.2))
    else if c = '[' then
      match rest with
      | [] => none
      | d :: r2 =>
        if d = ']' then some (.arr [], r2)
        else (parseArrTail f rest).map (fun p => (JsonVal.arr p.1, p.2))
    else if c = lbrace then
      match rest with
      | [] => none
      | d :: r2 =>
        if d = rbrace then some (.obj [], r2)
        else (parseObjTail f rest).map (fun p => (JsonVal.obj p.1, p.2))
    else if c = '-' then
      match parseNatChars rest with
      | none => none
      | some (m, r) => some (.num (-(m : Int)), r)
    else if c.isDigit then
      (parseNatChars (c :: rest)).map (fun p => (JsonVal.num (p.1 : Int), p.2))
    else none

/-- Parse the elements of a nonempty array body, consuming the closing
bracket. -/
def parseArrTail : Nat → Chars → Option (List JsonVal × Chars)
  | 0, _ => none
  | f + 1, cs =>
    match parseVal f cs with
    | none => none
    | some (v, r) =>
      match r with
      | [] => none
      | d :: r2 =>
        if d = ',' then
          match parseArrTail f r2 with
          | none => none
          | some (vs, r3) => some (v :: vs, r3)
        else if d = ']' then some ([v], r2)
        else none

/-- Parse the fields of a nonempty object body, consuming the closing
brace. -/
def parseObjTail : Nat → Chars → Option (List (Chars × JsonVal) × Chars)
  | 0, _ => none
  | f + 1, cs =>
    match cs with
    | [] => none
    | q :: r0 =>
      if q = '"' then
        match parseStrBody r0 with
        | none => none
        | some (k, r1) =>
          match r1 with
          | [] => none
          | colon :: r2 =>
            if colon = ':' then
              match parseVal f r2 with
              | none => none
              | some (v, r3) =>
                match r3 with
                | [] => none
                | d :: r4 =>
                  if d = ',' then
                    match parseObjTail f r4 with
                    | none => none
                    | some (fs, r5) => some ((k, v) :: fs, r5)
                  else if d = rbrace then some ([(k, v)], r4)
                  else none
            else none
      else none

end

/-- The continuation after a rendered value must not begin with a digit
(it never does in rendered JSON: it begins with a separator or is empty). -/
def headSafe : Chars → Prop
  | [] => True
  | c :: _ => c.isDigit = false

/-- The first character of the remainder, if any, fails the predicate. -/
def headNot (p : Char → Bool) : Chars → Prop
  | [] => True
  | c :: _ => p c = false

/-- Number of lines of a newline-terminated text: the count of newline
characters. -/
def countLines (cs : Chars) : Nat := cs.count '\n'

/-- The lines of a newline-terminated text (a trailing unterminated
fragment counts as a final line). -/
def splitLines : Chars → List Chars
  | [] => []
  | c :: cs =>
    if c = '\n' then [] :: splitLines cs
    else
      match splitLines cs with
      | [] => [[c]]
      | l :: ls => (c :: l) :: ls

/-- The five output formats (spec §3): exactly one is active per
invocation. -/
inductive OutputFormat where
  | json
  | jsonl
  | csv
  | tsv
  | human
deriving DecidableEq

/-- A RecordSet: a single Record or an ordered sequence of Records
(spec §3); the Projector handles both uniformly. -/
inductive RecordSet where
  | single (r : Record)
  | many (rs : List Record)

/-- Modelled from the spec: top-level field selection of the absent
output module.  With no selector every key is kept; with a selector only
the named top-level keys present in the record are kept, with their
values passed through untouched (selection is not recursive). -/
def selectFields (F : Option (List Chars)) (r : Record) : Record :=
  match F with
  | none => r
  | some fs => fs.filterMap (fun k => (getKey r k).map (fun v => (k, v)))

/-- The records of a RecordSet as a list. -/
def recsOf : RecordSet → List Record
  | .single r => [r]
  | .many rs => rs

/-- The structured value a RecordSet denotes after field selection:
an object for a single Record, an array of objects for a sequence. -/
def toVal (F : Option (List Chars)) : RecordSet → JsonVal
  | .single r => .obj (selectFields F r)
  | .many rs => .arr (rs.map (fun r => .obj (selectFields F r)))

/-- Modelled from the spec: `json` format output of the absent output
module — JSON text of the field-filtered RecordSet (array if sequence,
object if single).  The spec's pretty-printing whitespace is
presentational only and is not modelled. -/
def outputJson (rs : RecordSet) (F : Option (List Chars)) : Chars :=
  renderVal (toVal F rs)

/-- The lines of `jsonl` output: one compact JSON object per record. -/
def jsonlLines (rs : RecordSet) (F : Option (List Chars)) : List Chars :=
  (recsOf rs).map (fun r => renderVal (.obj (selectFields F r)))

/-- Modelled from the spec: `jsonl` format output — one compact,
independently field-filtered JSON object per line; a single Record gives
exactly one line. -/
def outputJsonl (rs : RecordSet) (F : Option (List Chars)) : Chars :=
  (jsonlLines rs F).flatMap (fun l => l ++ ['\n'])

/-- Modelled from the spec: the tabular column set — the selector when
given, otherwise the union of keys across all records in first-seen
order. -/
def colsOf (F : Option (List Chars)) (recs : List Record) : List Chars :=
  match F with
  | some fs => fs
  | none =>
    recs.foldl (fun acc r => acc ++ (r.map Prod.fst).filter (fun k => !acc.contains k)) []

/-- Modelled from the spec: text of one tabular cell.  Scalars render
directly (null as the empty cell); a non-scalar cell value is coerced to
its string representation rather than failing the render (spec §7). -/
def cellText : JsonVal → Chars
  | .null => []
  | .bool true => 't' :: 'r' :: 'u' :: 'e' :: []
  | .bool false => 'f' :: 'a' :: 'l' :: 's' :: 'e' :: []
  | .num n => intChars n
  | .str s => s
  | .arr xs => renderVal (.arr xs)
  | .obj fs => renderVal (.obj fs)

/-- Cell for a key of a record; a missing key renders as an empty cell. -/
def cellOf (r : Record) (k : Chars) : Chars :=
  match getKey r k with
  | none => []
  | some v => cellText v

/-- Double each embedded quote (standard csv quoting). -/
def dupQuotes : Chars → Chars
  | [] => []
  | c :: cs => if c = '"' then '"' :: '"' :: dupQuotes cs else c :: dupQuotes cs

/-- Modelled from the spec: standard csv quoting — a cell containing a
separator, quote or newline is wrapped in quotes with embedded quotes
doubled. -/
def csvEsc (s : Chars) : Chars :=
  if s.contains ',' || s.contains '"' || s.contains '\n' then '"' :: dupQuotes s ++ ['"']
  else s

/-- Modelled from the spec: tsv cell escaping — tabs and newlines are
stripped from cell values. -/
def tsvEsc (s : Chars) : Chars := s.filter (fun c => !(c = '\t' || c = '\n'))

/-- Cells of a row joined by a separator. -/
def joinSep (sep : Char) : List Chars → Chars
  | [] => []
  | [x] => x
  | x :: xs => x ++ sep :: joinSep sep xs

/-- The csv rows: an optional header row of column names, then one
comma-separated row per record. -/
def csvRows (rs : RecordSet) (F : Option (List Chars)) (noHeader : Bool) : List Chars :=
  let recs := recsOf rs
  let cols := colsOf F recs
  (if noHeader then [] else [joinSep ',' (cols.map csvEsc)])
    ++ recs.map (fun r => joinSep ',' (cols.map (fun k => csvEsc (cellOf r k))))

/-- Modelled from the spec: `csv` format output — an optional header row
of column names, then one comma-separated row per record, each row
newline-terminated. -/
def outputCsv (rs : RecordSet) (F : Option (List Chars)) (noHeader : Bool) : Chars :=
  (csvRows rs F noHeader).flatMap (fun l => l ++ ['\n'])

/-- The tsv rows: an optional header row, then one tab-separated row per
record. -/
def tsvRows (rs : RecordSet) (F : Option (List Chars)) (noHeader : Bool) : List Chars :=
  let recs := recsOf rs
  let cols := colsOf F recs
  (if noHeader then [] else [joinSep '\t' (cols.map tsvEsc)])
    ++ recs.map (fun r => joinSep '\t' (cols.map (fun k => tsvEsc (cellOf r k))))

/-- Modelled from the spec: `tsv` format output — literal tab separation
with tabs and newlines stripped from cell values, one newline-terminated
row per line. -/
def outputTsv (rs : RecordSet) (F : Option (List Chars)) (noHeader : Bool) : Chars :=
  (tsvRows rs F noHeader).flatMap (fun l => l ++ ['\n'])

/-- Modelled from the spec: `human` format for non-mutation output is an
implementation-defined readable rendering; modelled as the JSON text. -/
def outputHuman (rs : RecordSet) (F : Option (List Chars)) : Chars :=
  renderVal (toVal F rs)

/-- Modelled from the spec: the absent output module's `output` entry
point, dispatching on the active format. -/
def output (fmt : OutputFormat) (F : Option (List Chars)) (noHeader : Bool)
    (rs : RecordSet) : Chars :=
  match fmt with
  | .json => outputJson rs F
  | .jsonl => outputJsonl rs F
  | .csv => outputCsv rs F noHeader
  | .tsv => outputTsv rs F noHeader
  | .human => outputHuman rs F

/-- The global CLI state (core.State): output options plus fields the
renderer must not depend on. -/
structure CliState where
  format : OutputFormat
  fields : Option (List Chars)
  no_header : Bool
  verbose : Bool
  quiet : Bool
  config_path : Option Chars
  profile : Option Chars

/-- core.emit: renders the data with the current global format settings.
The returned state is the global state after the render, so that the
theorems can state that a render never mutates it. -/
def emit (st : CliState) (rs : RecordSet) : Chars × CliState :=
  (output st.format st.fields st.no_header rs, st)

/-- Modelled from the spec: the absent output module's `emit_result` for
mutation commands — `human` format prints only the supplied summary
string; every other format prints the full structured payload. -/
def emit_result (st : CliState) (payload : RecordSet) (human_msg : Chars) : Chars :=
  match st.format with
  | .human => human_msg
  | .json => outputJson payload st.fields
  | .jsonl => outputJsonl payload st.fields
  | .csv => outputCsv payload st.fields st.no_header
  | .tsv => outputTsv payload st.fields st.no_header

/-- Observable effects of one run of a delete command. -/
structure MutationRun where
  prompted : Bool
  aborted : Bool
  deleteInvoked : Bool
  emitted : Option Chars

/-- commands/activities.py `delete_activity`: without `--force` a
confirmation prompt is shown and a declined prompt aborts before the
external delete call; otherwise the delete is invoked and the result
emitted (the external call itself is modelled as succeeding). -/
def delete_activity (st : CliState) (activity_id : Int)
    (force confirm_answer : Bool) : MutationRun :=
  if force = false then
    if confirm_answer = false then ⟨true, true, false, none⟩
    else
      ⟨true, false, true,
        some (emit_result st (.single [("activity_id".data, .num activity_id)])
          ("Activity ".data ++ intChars activity_id ++ " deleted".data))⟩
  else
    ⟨false, false, true,
      some (emit_result st (.single [("activity_id".data, .num activity_id)])
        ("Activity ".data ++ intChars activity_id ++ " deleted".data))⟩

/-- commands/weight.py `delete_weight`: same confirmation policy as
`delete_activity`, deleting one weight entry by primary key. -/
def delete_weight (st : CliState) (pk : Int)
    (force confirm_answer : Bool) : MutationRun :=
  if force = false then
    if confirm_answer = false then ⟨true, true, false, none⟩
    else
      ⟨true, false, true,
        some (emit_result st (.single [("pk".data, .num pk)])
          ("Weight entry ".data ++ intChars pk ++ " deleted".data))⟩
  else
    ⟨false, false, true,
      some (emit_result st (.single [("pk".data, .num pk)])
        ("Weight entry ".data ++ intChars pk ++ " deleted".data))⟩

/-- commands/weight.py `delete_weights_for_date`: same confirmation
policy, deleting all weight entries of a date. -/
def delete_weights_for_date (st : CliState) (date_str : Chars)
    (force confirm_answer : Bool) : MutationRun :=
  if force = false then
    if confirm_answer = false then ⟨true, true, false, none⟩
    else
      ⟨true, false, true,
        some (emit_result st (.single [("date".data, .str date_str)])
          ("Weight entries for ".data ++ date_str ++ " deleted".data))⟩
  else
    ⟨false, false, true,
      some (emit_result st (.single [("date".data, .str date_str)])
        ("Weight entries for ".data ++ date_str ++ " deleted".data))⟩
/-- One fetch outcome of the external client at this invocation: the
returned value, or a raised exception. -/
abbrev Fetch (α : Type) := Except Unit α

/-- The external client boundary used by the context command: the outcome
each operation would produce if invoked during this run.  The date and
paging arguments the source passes are fixed per invocation and therefore
not modelled. -/
structure GarminClient where
  get_user_profile : Fetch JsonVal
  get_full_name : Fetch JsonVal
  get_user_summary : Fetch JsonVal
  get_heart_rates : Fetch JsonVal
  get_sleep_data : Fetch JsonVal
  get_body_battery : Fetch JsonVal
  get_stress_data : Fetch JsonVal
  get_training_status : Fetch JsonVal
  get_training_readiness : Fetch JsonVal
  get_max_metrics : Fetch JsonVal
  get_body_composition : Fetch JsonVal
  get_activities : Fetch (List JsonVal)

/-- context.py lines 99-108: the always-included profile entry.  In the
source, `profile.get(...)` on a non-mapping raises before `get_full_name`
is called, and any of these exceptions is caught and recorded as null;
the match order here yields the same value in every case. -/
def profileVal (c : GarminClient) : JsonVal :=
  match c.get_user_profile with
  | .error _ => .null
  | .ok profile =>
    match profile with
    | .obj pf =>
      match c.get_full_name with
      | .error _ => .null
      | .ok fn =>
        .obj [("displayName".data, dget pf "displayName".data),
              ("fullName".data, fn),
              ("profileImageUrl".data, dget pf "profileImageUrlLarge".data)]
    | _ => .null

/-- context.py lines 112-126: today's stats entry; a failed fetch (or a
non-mapping summary, whose `.get` raises) records null. -/
def statsVal (c : GarminClient) : JsonVal :=
  match c.get_user_summary with
  | .error _ => .null
  | .ok (.obj sf) =>
    .obj [("totalSteps".data, dget sf "totalSteps".data),
          ("totalDistanceMeters".data, dget sf "totalDistanceMeters".data),
          ("totalKilocalories".data, dget sf "totalKilocalories".data),
          ("floorsClimbed".data, dget sf "floorsClimbed".data),
          ("activeTimeInSeconds".data, dget sf "activeTimeInSeconds".data),
          ("minHeartRate".data, dget sf "minHeartRate".data),
          ("maxHeartRate".data, dget sf "maxHeartRate".data),
          ("restingHeartRate".data, dget sf "restingHeartRate".data)]
  | .ok _ => .null

/-- context.py lines 132-141: the heart_rate field of the health record. -/
def heartRateVal (c : GarminClient) : JsonVal :=
  match c.get_heart_rates with
  | .error _ => .null
  | .ok (.obj hf) =>
    .obj [("resting".data, dget hf "restingHeartRate".data),
          ("min".data, dget hf "minHeartRate".data),
          ("max".data, dget hf "maxHeartRate".data)]
  | .ok _ => .null

/-- context.py lines 143-158: the sleep field.  A falsy value or a missing
"dailySleepDTO" key takes the else branch (null); `in` or subscripting on
a truthy non-mapping raises into the except (null); a non-mapping DTO
makes `dto.get` raise into the except (null). -/
def sleepVal (c : GarminClient) : JsonVal :=
  match c.get_sleep_data with
  | .error _ => .null
  | .ok sleep =>
    match sleep with
    | .obj sf =>
      if truthy (.obj sf) then
        match getKey sf "dailySleepDTO".data with
        | some (.obj df) =>
          .obj [("sleepTimeSeconds".data, dget df "sleepTimeSeconds".data),
                ("deepSleepSeconds".data, dget df "deepSleepSeconds".data),
                ("lightSleepSeconds".data, dget df "lightSleepSeconds".data),
                ("remSleepSeconds".data, dget df "remSleepSeconds".data),
                ("awakeSleepSeconds".data, dget df "awakeSleepSeconds".data)]
        | some _ => .null
        | none => .null
      else .null
    | _ => .null

/-- context.py lines 160-169: the body_battery field — the latest reading
of a nonempty list, otherwise null (the isinstance guard rejects
non-lists). -/
def bodyBatteryVal (c : GarminClient) : JsonVal :=
  match c.get_body_battery with
  | .error _ => .null
  | .ok (.arr xs) => (xs.getLast?).getD .null
  | .ok _ => .null

/-- context.py lines 171-183: the stress field; a truthy non-mapping makes
`.get` raise into the except (null). -/
def stressVal (c : GarminClient) : JsonVal :=
  match c.get_stress_data with
  | .error _ => .null
  | .ok stress =>
    if truthy stress then
      match stress with
      | .obj sf =>
        .obj [("overallStressLevel".data, dget sf "overallStressLevel".data),
              ("restStressLevel".data, dget sf "restStressLevel".data),
              ("activityStressLevel".data, dget sf "activityStressLevel".data)]
      | _ => .null
    else .null

/-- context.py lines 129-185: the health section is always a record of its
four fields, never null itself. -/
def healthVal (c : GarminClient) : JsonVal :=
  .obj [("heart_rate".data, heartRateVal c),
        ("sleep".data, sleepVal c),
        ("body_battery".data, bodyBatteryVal c),
        ("stress".data, stressVal c)]

/-- context.py lines 191-196: the training status field. -/
def trainingStatusVal (c : GarminClient) : JsonVal :=
  match c.get_training_status with
  | .error _ => .null
  | .ok (.obj sf) => dget sf "trainingStatusPhrase".data
  | .ok _ => .null

/-- context.py lines 198-203: the training readiness field. -/
def trainingReadinessVal (c : GarminClient) : JsonVal :=
  match c.get_training_readiness with
  | .error _ => .null
  | .ok (.obj rf) => dget rf "readinessScore".data
  | .ok _ => .null

/-- context.py lines 205-215: the VO2max entries.  When the fetch raises,
or any nested `.get` raises (non-mapping metrics / generic / cycling),
the except clause records null for both keys; when the metrics value is
falsy the `if metrics:` body is skipped and the keys are never set. -/
def vo2Entries (c : GarminClient) : Record :=
  match c.get_max_metrics with
  | .error _ => [("vo2max_running".data, .null), ("vo2max_cycling".data, .null)]
  | .ok metrics =>
    if truthy metrics then
      match metrics with
      | .obj mf =>
        match (getKey mf "generic".data).getD (.obj []),
            (getKey mf "cycling".data).getD (.obj []) with
        | .obj gf, .obj cf =>
          [("vo2max_running".data, dget gf "vo2MaxValue".data),
           ("vo2max_cycling".data, dget cf "vo2MaxValue".data)]
        | _, _ => [("vo2max_running".data, .null), ("vo2max_cycling".data, .null)]
      | _ => [("vo2max_running".data, .null), ("vo2max_cycling".data, .null)]
    else []

/-- context.py lines 188-217: the training section record. -/
def trainingVal (c : GarminClient) : JsonVal :=
  .obj ([("status".data, trainingStatusVal c),
         ("readiness".data, trainingReadinessVal c)] ++ vo2Entries c)

/-- Python `x / 1000 if x else None` on a gram value.  Float division is
modelled by integer division: no claim inspects the numeric result, only
whether and as what the entry is recorded.  A truthy value that is
neither a number nor a boolean (Python booleans are integers) makes the
division raise (`none`). -/
def gramsToKg (v : JsonVal) : Option JsonVal :=
  if truthy v then
    match v with
    | .num n => some (.num (n / 1000))
    | .bool _ => some (.num 0)
    | _ => none
  else some .null

/-- The weight record the except clause of context.py lines 233-237
produces: all three keys null. -/
def weightFail : Record :=
  [("current_kg".data, .null), ("body_fat_pct".data, .null),
   ("muscle_mass_kg".data, .null)]

/-- context.py lines 220-239: the weight section.  A raising fetch, a
non-mapping body_comp (whose `.get` raises) or a raising division lands
in the except clause (all three keys null); a falsy body_comp skips the
`if body_comp:` body leaving the record empty. -/
def weightVal (c : GarminClient) : JsonVal :=
  match c.get_body_composition with
  | .error _ => .obj weightFail
  | .ok body_comp =>
    if truthy body_comp then
      match body_comp with
      | .obj bf =>
        match gramsToKg (dget bf "weight".data),
            gramsToKg (dget bf "muscleMass".data) with
        | some ck, some mk =>
          .obj [("current_kg".data, ck),
                ("body_fat_pct".data, dget bf "bodyFat".data),
                ("muscle_mass_kg".data, mk)]
        | _, _ => .obj weightFail
      | _ => .obj weightFail
    else .obj []

/-- Whether a value is a Python mapping. -/
def isObjB : JsonVal → Bool
  | .obj _ => true
  | _ => false

/-- context.py lines 245-260: the per-activity projection of the list
comprehension (each element is known to be a mapping when this is
applied). -/
def actProj (a : JsonVal) : JsonVal :=
  match a with
  | .obj af =>
    .obj [("activityId".data, dget af "activityId".data),
          ("activityName".data, dget af "activityName".data),
          ("activityType".data,
            match dget af "activityType".data with
            | .obj tf => dget tf "typeKey".data
            | v => v),
          ("distance".data, dget af "distance".data),
          ("duration".data, dget af "duration".data),
          ("startTimeLocal".data, dget af "startTimeLocal".data),
          ("averageHR".data, dget af "averageHR".data),
          ("calories".data, dget af "calories".data),
          ("elevationGain".data, dget af "elevationGain".data)]
  | _ => .null

/-- context.py lines 242-263: the recent_activities section.  A raising
fetch records the empty list; a non-mapping element makes `.get` raise
mid-comprehension, which the except clause also records as the empty
list. -/
def activitiesVal (c : GarminClient) : JsonVal :=
  match c.get_activities with
  | .error _ => .arr []
  | .ok acts =>
    if acts.all isObjB then .arr (acts.map actProj)
    else .arr []

/-- The caller-supplied options of the context command.  The focus option
is modelled after `set(focus.split(","))`: the already-split list of
names, or none when the option is absent. -/
structure CtxParams where
  include_health : Bool
  include_stats : Bool
  include_training : Bool
  include_weight : Bool
  focus : Option (List Chars)

/-- The sections of the context command, in declaration order. -/
inductive CtxSection where
  | profile
  | stats
  | health
  | training
  | weight
  | activities
deriving DecidableEq

/-- The result key of each section. -/
def CtxSection.key : CtxSection → Chars
  | .profile => "profile".data
  | .stats => "today_stats".data
  | .health => "health".data
  | .training => "training".data
  | .weight => "weight".data
  | .activities => "recent_activities".data

/-- `focus_areas is None or name in focus_areas`. -/
def focusOk (p : CtxParams) (name : Chars) : Bool :=
  match p.focus with
  | none => true
  | some fs => fs.contains name

/-- Which sections a run with these options attempts: the profile is
unconditional, the four flag-gated sections need their flag on and their
name in the focus set (when one is given), and the activities section is
gated by focus alone. -/
def sectionActive (p : CtxParams) : CtxSection → Bool
  | .profile => true
  | .stats => p.include_stats && focusOk p "stats".data
  | .health => p.include_health && focusOk p "health".data
  | .training => p.include_training && focusOk p "training".data
  | .weight => p.include_weight && focusOk p "weight".data
  | .activities => focusOk p "activities".data

/-- All sections in declaration order. -/
def allSections : List CtxSection :=
  [.profile, .stats, .health, .training, .weight, .activities]

/-- context.py lines 95-265: one run of the context command.  The result
mapping is built section by section in source order; the trace records
each section the run attempts, in execution order.  Every section body is
wrapped in try/except in the source, so the function is total: no
exception escapes. -/
def contextRun (p : CtxParams) (c : GarminClient) : Record × List CtxSection :=
  let acc : Record × List CtxSection := ([("profile".data, profileVal c)], [.profile])
  let acc := if p.include_stats && focusOk p "stats".data then
      (acc.1 ++ [("today_stats".data, statsVal c)], acc.2 ++ [.stats]) else acc
  let acc := if p.include_health && focusOk p "health".data then
      (acc.1 ++ [("health".data, healthVal c)], acc.2 ++ [.health]) else acc
  let acc := if p.include_training && focusOk p "training".data then
      (acc.1 ++ [("training".data, trainingVal c)], acc.2 ++ [.training]) else acc
  let acc := if p.include_weight && focusOk p "weight".data then
      (acc.1 ++ [("weight".data, weightVal c)], acc.2 ++ [.weight]) else acc
  let acc := if focusOk p "activities".data then
      (acc.1 ++ [("recent_activities".data, activitiesVal c)], acc.2 ++ [.activities]) else acc
  acc

/-- The CompositeResult of one context run. -/
def context (p : CtxParams) (c : GarminClient) : Record := (contextRun p c).1

/-- The sections attempted by one context run, in execution order. -/
def contextTrace (p : CtxParams) (c : GarminClient) : List CtxSection :=
  (contextRun p c).2

/-- The value each section contributes, as a function of the client. -/
def sectionVal : CtxSection → GarminClient → JsonVal
  | .profile => profileVal
  | .stats => statsVal
  | .health => healthVal
  | .training => trainingVal
  | .weight => weightVal
  | .activities => activitiesVal

/-- Two clients agree on every fetch a given section uses. -/
def usesSame (c c' : GarminClient) : CtxSection → Prop
  | .profile => c.get_user_profile = c'.get_user_profile ∧
      c.get_full_name = c'.get_full_name
  | .stats => c.get_user_summary = c'.get_user_summary
  | .health => c.get_heart_rates = c'.get_heart_rates ∧
      c.get_sleep_data = c'.get_sleep_data ∧
      c.get_body_battery = c'.get_body_battery ∧
      c.get_stress_data = c'.get_stress_data
  | .training => c.get_training_status = c'.get_training_status ∧
      c.get_training_readiness = c'.get_training_readiness ∧
      c.get_max_metrics = c'.get_max_metrics
  | .weight => c.get_body_composition = c'.get_body_composition
  | .activities => c.get_activities = c'.get_activities

/-- Every fetch of the given section raises. -/
def sectionFails (c : GarminClient) : CtxSection → Prop
  | .profile => c.get_user_profile = .error ()
  | .stats => c.get_user_summary = .error ()
  | .health => c.get_heart_rates = .error () ∧
      c.get_sleep_data = .error () ∧
      c.get_body_battery = .error () ∧
      c.get_stress_data = .error ()
  | .training => c.get_training_status = .error () ∧
      c.get_training_readiness = .error () ∧
      c.get_max_metrics = .error ()
  | .weight => c.get_body_composition = .error ()
  | .activities => c.get_activities = .error ()

/-- What a section records when all of its fetches raise. -/
def failVal : CtxSection → JsonVal
  | .profile => .null
  | .stats => .null
  | .health => .obj [("heart_rate".data, .null), ("sleep".data, .null),
      ("body_battery".data, .null), ("stress".data, .null)]
  | .training => .obj [("status".data, .null), ("readiness".data, .null),
      ("vo2max_running".data, .null), ("vo2max_cycling".data, .null)]
  | .weight => .obj weightFail
  | .activities => .arr []
/-- The client at which every fetch raises. -/
def errClient : GarminClient :=
  ⟨.error (), .error (), .error (), .error (), .error (), .error (), .error (), .error (),
   .error (), .error (), .error (), .error ()⟩

/-- A client differing from `errClient` only in the stats fetch. -/
def client2 : GarminClient :=
  ⟨.error (), .error (), .ok (.obj []), .error (), .error (), .error (), .error (), .error (),
   .error (), .error (), .error (), .error ()⟩

/-- All enable flags on, no focus restriction. -/
def pAll : CtxParams := ⟨true, true, true, true, none⟩

/-- Focus names the stats section while its enable flag is off. -/
def pFocusStats : CtxParams := ⟨true, false, true, true, some ["stats".data]⟩

theorem jsize_pos (v : JsonVal) : 1 ≤ jsize v := by
  cases v <;> simp [jsize]

theorem jsizeL_pos (xs : List JsonVal) : 1 ≤ jsize.jsizeL xs := by
  cases xs with
  | nil => simp [jsize.jsizeL]
  | cons x xs => simp only [jsize.jsizeL]; omega

theorem jsizeO_pos (fs : List (Chars × JsonVal)) : 1 ≤ jsize.jsizeO fs := by
  cases fs with
  | nil => simp [jsize.jsizeO]
  | cons kv fs => obtain ⟨k, v⟩ := kv; simp only [jsize.jsizeO]; omega

theorem digitCh_toNat {d : Nat} (h : d < 10) : (digitCh d).toNat = 48 + d := by
  interval_cases d <;> decide

theorem digitCh_isDigit {d : Nat} (h : d < 10) : (digitCh d).isDigit = true := by
  interval_cases d <;> decide

theorem natCharsAux_digits :
    ∀ fuel n, ∀ c ∈ natCharsAux fuel n, c.isDigit = true := by
  intro fuel
  induction fuel with
  | zero => intro n c hc; simp [natCharsAux] at hc
  | succ f ih =>
    intro n c hc
    by_cases h0 : n = 0
    · simp [natCharsAux, h0] at hc
    · simp only [natCharsAux, if_neg h0, List.mem_append, List.mem_singleton] at hc
      rcases hc with hc | hc
      · exact ih _ c hc
      · subst hc; exact digitCh_isDigit (Nat.mod_lt _ (by omega))

theorem digitsVal_append_one (l : Chars) (c : Char) :
    digitsVal (l ++ [c]) = 10 * digitsVal l + (c.toNat - 48) := by
  simp [digitsVal, List.foldl_append]

theorem natCharsAux_val :
    ∀ fuel n, n ≤ fuel → digitsVal (natCharsAux fuel n) = n := by
  intro fuel
  induction fuel with
  | zero => intro n hn; interval_cases n; simp [natCharsAux, digitsVal]
  | succ f ih =>
    intro n hn
    by_cases h0 : n = 0
    · simp [natCharsAux, h0, digitsVal]
    · have hdiv : n / 10 ≤ f := by
        have := Nat.div_lt_self (Nat.pos_of_ne_zero h0) (by omega : 1 < 10)
        omega
      rw [natCharsAux, if_neg h0, digitsVal_append_one, ih _ hdiv,
        digitCh_toNat (Nat.mod_lt _ (by omega))]
      omega

theorem natChars_ne_nil (n : Nat) : natChars n ≠ [] := by
  by_cases h0 : n = 0
  · simp [natChars, h0]
  · rw [natChars, if_neg h0]
    obtain ⟨f, rfl⟩ : ∃ f, n = f + 1 := ⟨n - 1, by omega⟩
    rw [natCharsAux, if_neg h0]
    simp

theorem natChars_digits (n : Nat) : ∀ c ∈ natChars n, c.isDigit = true := by
  by_cases h0 : n = 0
  · intro c hc; simp [natChars, h0] at hc; subst hc; decide
  · intro c hc
    rw [natChars, if_neg h0] at hc
    exact natCharsAux_digits n n c hc

theorem natChars_val (n : Nat) : digitsVal (natChars n) = n := by
  by_cases h0 : n = 0
  · subst h0; decide
  · rw [natChars, if_neg h0]; exact natCharsAux_val n n le_rfl

theorem stripPre_self : ∀ (p cs : Chars), stripPre p (p ++ cs) = some cs := by
  intro p
  induction p with
  | nil => intro cs; simp [stripPre]
  | cons c ps ih => intro cs; simp [stripPre, ih]

theorem takeWhile_app (p : Char → Bool) :
    ∀ (l r : Chars), (∀ c ∈ l, p c = true) → headNot p r →
      (l ++ r).takeWhile p = l ∧ (l ++ r).dropWhile p = r := by
  intro l
  induction l with
  | nil =>
    intro r _ hr
    cases r with
    | nil => simp
    | cons c rest =>
      have hc : p c = false := hr
      simp [List.takeWhile, List.dropWhile, hc]
  | cons c cs ih =>
    intro r hl hr
    have hc : p c = true := hl c (by simp)
    have := ih r (fun x hx => hl x (by simp [hx])) hr
    simp [List.takeWhile, List.dropWhile, hc, this.1, this.2]

theorem parseNatChars_natChars (n : Nat) (rest : Chars) (h : headSafe rest) :
    parseNatChars (natChars n ++ rest) = some (n, rest) := by
  have hr : headNot Char.isDigit rest := by
    cases rest with
    | nil => trivial
    | cons c cs => exact h
  have hsplit := takeWhile_app Char.isDigit (natChars n) rest (natChars_digits n) hr
  rw [parseNatChars, hsplit.1, hsplit.2]
  simp [List.isEmpty_iff, natChars_ne_nil n, natChars_val n]

theorem parseStrBody_escape :
    ∀ (s rest : Chars), parseStrBody (escChars s ++ '"' :: rest) = some (s, rest) := by
  intro s
  induction s with
  | nil => intro rest; simp [escChars, parseStrBody.eq_def]
  | cons c cs ih =>
    intro rest
    by_cases h1 : c = '"'
    · subst h1
      simp only [escChars, escCh, if_pos rfl, List.cons_append, List.nil_append]
      rw [parseStrBody.eq_def]
      simp [unescCh, ih]
    · by_cases h2 : c = '\\'
      · subst h2
        simp only [escChars, escCh, if_neg (by decide : ¬('\\' : Char) = '"'), if_pos rfl,
          List.cons_append, List.nil_append]
        rw [parseStrBody.eq_def]
        simp [unescCh, ih]
      · by_cases h3 : c = '\n'
        · subst h3
          simp only [escChars, escCh, if_neg (by decide : ¬('\n' : Char) = '"'),
            if_neg (by decide : ¬('\n' : Char) = '\\'), if_pos rfl,
            List.cons_append, List.nil_append]
          rw [parseStrBody.eq_def]
          simp [unescCh, ih]
        · by_cases h4 : c = '\t'
          · subst h4
            simp only [escChars, escCh, if_neg (by decide : ¬('\t' : Char) = '"'),
              if_neg (by decide : ¬('\t' : Char) = '\\'),
              if_neg (by decide : ¬('\t' : Char) = '\n'), if_pos rfl,
              List.cons_append, List.nil_append]
            rw [parseStrBody.eq_def]
            simp [unescCh, ih]
          · by_cases h5 : c = '\r'
            · subst h5
              simp only [escChars, escCh, if_neg (by decide : ¬('\r' : Char) = '"'),
                if_neg (by decide : ¬('\r' : Char) = '\\'),
                if_neg (by decide : ¬('\r' : Char) = '\n'),
                if_neg (by decide : ¬('\r' : Char) = '\t'), if_pos rfl,
                List.cons_append, List.nil_append]
              rw [parseStrBody.eq_def]
              simp [unescCh, ih]
            · simp only [escChars, escCh, if_neg h1, if_neg h2, if_neg h3, if_neg h4,
                if_neg h5, List.cons_append, List.nil_append]
              rw [parseStrBody.eq_def]
              simp [h1, h2, ih]

/-- Structural induction for `JsonVal` with membership hypotheses for the
nested lists. -/
theorem JsonVal.indOn (P : JsonVal → Prop) (hnull : P .null)
    (hbool : ∀ b, P (.bool b)) (hnum : ∀ n, P (.num n)) (hstr : ∀ s, P (.str s))
    (harr : ∀ xs, (∀ x ∈ xs, P x) → P (.arr xs))
    (hobj : ∀ fs, (∀ kv ∈ fs, P kv.2) → P (.obj fs)) :
    ∀ v, P v
  | .null => hnull
  | .bool b => hbool b
  | .num n => hnum n
  | .str s => hstr s
  | .arr xs =>
    harr xs (fun x hx =>
      have : sizeOf x < 1 + sizeOf xs := by
        have := List.sizeOf_lt_of_mem hx
        omega
      JsonVal.indOn P hnull hbool hnum hstr harr hobj x)
  | .obj fs =>
    hobj fs (fun kv hkv =>
      have : sizeOf kv.2 < 1 + sizeOf fs := by
        have h1 := List.sizeOf_lt_of_mem hkv
        have h2 : sizeOf kv.2 < sizeOf kv := by
          obtain ⟨k, v⟩ := kv
          simp
        omega
      JsonVal.indOn P hnull hbool hnum hstr harr hobj kv.2)
termination_by v => sizeOf v

theorem digit_not_special {c : Char} (h : c.isDigit = true) :
    c ≠ 'n' ∧ c ≠ 't' ∧ c ≠ 'f' ∧ c ≠ '"' ∧ c ≠ '[' ∧ c ≠ lbrace ∧ c ≠ '-' := by
  refine ⟨?_, ?_, ?_, ?_, ?_, ?_, ?_⟩ <;> (intro he; subst he; revert h; decide)

theorem digit_ne_of {c c' : Char} (h : c.isDigit = true) (h' : c'.isDigit = false) :
    c ≠ c' := by
  intro he; subst he; rw [h] at h'; exact absurd h' (by simp)

theorem renderVal_head (v : JsonVal) :
    ∃ c tl, renderVal v = c :: tl ∧ c ≠ ']' ∧ c ≠ rbrace := by
  cases v with
  | null => exact ⟨'n', _, rfl, by decide, by decide⟩
  | bool b =>
    cases b with
    | false => exact ⟨'f', _, rfl, by decide, by decide⟩
    | true => exact ⟨'t', _, rfl, by decide, by decide⟩
  | num n =>
    by_cases hneg : n < 0
    · exact ⟨'-', natChars n.natAbs, by simp [renderVal, intChars, hneg], by decide, by decide⟩
    · cases hnc : natChars n.toNat with
      | nil => exact absurd hnc (natChars_ne_nil _)
      | cons c tl =>
        have hc : c.isDigit = true := natChars_digits _ c (by rw [hnc]; simp)
        exact ⟨c, tl, by simp [renderVal, intChars, hneg, hnc],
          digit_ne_of hc (by decide), digit_ne_of hc (by decide)⟩
  | str s => exact ⟨'"', _, rfl, by decide, by decide⟩
  | arr xs => exact ⟨'[', _, rfl, by decide, by decide⟩
  | obj fs => exact ⟨lbrace, _, rfl, by decide, by decide⟩

theorem escCh_no_nl (c : Char) : '\n' ∉ escCh c := by
  rw [escCh]
  split_ifs with h1 h2 h3 h4 h5
  · decide
  · decide
  · decide
  · decide
  · decide
  · simp only [List.mem_singleton]
    intro he
    exact h3 he.symm

theorem escChars_no_nl : ∀ s : Chars, '\n' ∉ escChars s := by
  intro s
  induction s with
  | nil => simp [escChars]
  | cons c cs ih =>
    intro h
    simp only [escChars, List.mem_append] at h
    rcases h with h | h
    · exact escCh_no_nl c h
    · exact ih h

theorem renderStr_no_nl (s : Chars) : '\n' ∉ renderStr s := by
  intro h
  simp only [renderStr, List.mem_cons, List.mem_append, List.mem_singleton] at h
  have h1 : ('\n' : Char) ≠ '"' := by decide
  have h2 := escChars_no_nl s
  tauto

theorem natChars_no_nl (n : Nat) : '\n' ∉ natChars n := by
  intro h
  exact absurd (natChars_digits n _ h) (by decide)

theorem intChars_no_nl (n : Int) : '\n' ∉ intChars n := by
  rw [intChars]
  split_ifs
  · intro h
    simp only [List.mem_cons] at h
    rcases h with h | h
    · exact absurd h (by decide)
    · exact natChars_no_nl _ h
  · exact natChars_no_nl _

theorem renderArr_no_nl : ∀ xs : List JsonVal,
    (∀ x ∈ xs, '\n' ∉ renderVal x) → '\n' ∉ renderArr xs := by
  intro xs
  induction xs with
  | nil => intro _; simp [renderArr]
  | cons x xs ih =>
    intro h
    cases xs with
    | nil => simpa [renderArr] using h x (by simp)
    | cons y ys =>
      intro hmem
      simp only [renderArr, List.mem_append, List.mem_cons] at hmem
      have h1 := h x (by simp)
      have h2 : ('\n' : Char) ≠ ',' := by decide
      have h3 := ih (fun z hz => h z (List.mem_cons_of_mem _ hz))
      tauto

theorem renderObj_no_nl : ∀ fs : List (Chars × JsonVal),
    (∀ kv ∈ fs, '\n' ∉ renderVal kv.2) → '\n' ∉ renderObj fs := by
  intro fs
  induction fs with
  | nil => intro _; simp [renderObj]
  | cons kv fs ih =>
    intro h
    obtain ⟨k, v⟩ := kv
    cases fs with
    | nil =>
      intro hmem
      simp only [renderObj, List.mem_append, List.mem_cons] at hmem
      have h1 := renderStr_no_nl k
      have h2 : ('\n' : Char) ≠ ':' := by decide
      have h3 := h (k, v) (by simp)
      tauto
    | cons kv2 fs2 =>
      intro hmem
      simp only [renderObj, List.mem_append, List.mem_cons] at hmem
      have h1 := renderStr_no_nl k
      have h2 : ('\n' : Char) ≠ ':' := by decide
      have h3 := h (k, v) (by simp)
      have h4 : ('\n' : Char) ≠ ',' := by decide
      have h5 := ih (fun z hz => h z (List.mem_cons_of_mem _ hz))
      tauto

theorem renderVal_no_nl : ∀ v : JsonVal, '\n' ∉ renderVal v := by
  intro v
  induction v using JsonVal.indOn with
  | hnull => decide
  | hbool b => cases b <;> decide
  | hnum n => exact intChars_no_nl n
  | hstr s => exact renderStr_no_nl s
  | harr xs ih =>
    intro hmem
    simp only [renderVal, List.mem_cons, List.mem_append, List.mem_singleton] at hmem
    have h1 : ('\n' : Char) ≠ '[' := by decide
    have h2 := renderArr_no_nl xs ih
    have h3 : ('\n' : Char) ≠ ']' := by decide
    tauto
  | hobj fs ih =>
    intro hmem
    simp only [renderVal, List.mem_cons, List.mem_append, List.mem_singleton] at hmem
    have h1 : ('\n' : Char) ≠ lbrace := by decide
    have h2 := renderObj_no_nl fs ih
    have h3 : ('\n' : Char) ≠ rbrace := by decide
    tauto

theorem renderArr_ne_rb (x : JsonVal) (xs : List JsonVal) :
    ∃ c tl, renderArr (x :: xs) = c :: tl ∧ c ≠ ']' ∧ c ≠ rbrace := by
  obtain ⟨c, tl', hx, h1, h2⟩ := renderVal_head x
  cases xs with
  | nil => exact ⟨c, tl', by simp [renderArr, hx], h1, h2⟩
  | cons y ys => exact ⟨c, tl' ++ ',' :: renderArr (y :: ys), by simp [renderArr, hx], h1, h2⟩

theorem renderObj_cons_head (k : Chars) (v : JsonVal) (fs : List (Chars × JsonVal)) :
    ∃ tl, renderObj ((k, v) :: fs) = '"' :: tl := by
  cases fs with
  | nil => exact ⟨escChars k ++ ['"'] ++ ':' :: renderVal v, by simp [renderObj, renderStr]⟩
  | cons kv2 fs2 =>
    exact ⟨escChars k ++ ['"'] ++ ':' :: renderVal v ++ ',' :: renderObj (kv2 :: fs2),
      by simp [renderObj, renderStr]⟩
theorem parse_render : ∀ fuel : Nat,
    (∀ v rest, jsize v < fuel → headSafe rest →
      parseVal fuel (renderVal v ++ rest) = some (v, rest)) ∧
    (∀ xs rest, xs ≠ [] → jsize.jsizeL xs < fuel →
      parseArrTail fuel (renderArr xs ++ ']' :: rest) = some (xs, rest)) ∧
    (∀ fs rest, fs ≠ [] → jsize.jsizeO fs < fuel →
      parseObjTail fuel (renderObj fs ++ rbrace :: rest) = some (fs, rest)) := by
  intro fuel
  induction fuel using Nat.strong_induction_on with
  | _ fuel IH =>
  match fuel with
  | 0 =>
    exact ⟨fun v rest h _ => absurd h (by omega), fun xs rest _ h => absurd h (by omega),
      fun fs rest _ h => absurd h (by omega)⟩
  | f + 1 =>
    obtain ⟨IHv, IHa, IHo⟩ := IH f (by omega)
    refine ⟨?_, ?_, ?_⟩
    · intro v rest hsz hsafe
      cases v with
      | null => rw [renderVal, parseVal.eq_def]; simp [stripPre]
      | bool b =>
        cases b with
        | true => rw [renderVal, parseVal.eq_def]; simp [stripPre]
        | false => rw [renderVal, parseVal.eq_def]; simp [stripPre]
      | str s =>
        rw [renderVal, renderStr, parseVal.eq_def]
        simp [parseStrBody_escape]
      | num n =>
        rw [renderVal]
        by_cases hneg : n < 0
        · rw [intChars, if_pos hneg, parseVal.eq_def]
          have hpn := parseNatChars_natChars n.natAbs rest hsafe
          have hlb : ('-' : Char) ≠ lbrace := by decide
          simp [hpn, hlb]
          rw [abs_of_neg hneg, neg_neg]
        · rw [intChars, if_neg hneg]
          cases hnc : natChars n.toNat with
          | nil => exact absurd hnc (natChars_ne_nil _)
          | cons c tl =>
            have hc : c.isDigit = true := natChars_digits _ c (by rw [hnc]; simp)
            obtain ⟨hd1, hd2, hd3, hd4, hd5, hd6, hd7⟩ := digit_not_special hc
            have hpn : parseNatChars (c :: (tl ++ rest)) = some (n.toNat, rest) := by
              rw [← List.cons_append, ← hnc]
              exact parseNatChars_natChars _ _ hsafe
            have htn : ((n.toNat : Nat) : Int) = n := by omega
            rw [parseVal.eq_def]
            simp [hd1, hd2, hd3, hd4, hd5, hd6, hd7, hc, hpn, htn]
      | arr xs =>
        cases xs with
        | nil =>
          rw [renderVal, renderArr, parseVal.eq_def]
          simp
        | cons x xs2 =>
          obtain ⟨c0, tl0, ha, hne, _⟩ := renderArr_ne_rb x xs2
          have hsz2 : jsize.jsizeL (x :: xs2) < f := by
            rw [jsize] at hsz; omega
          have hpa := IHa (x :: xs2) rest (by simp) hsz2
          have hback : c0 :: (tl0 ++ ']' :: rest) = renderArr (x :: xs2) ++ ']' :: rest := by
            rw [ha]; simp
          rw [renderVal, parseVal.eq_def]
          simp only [List.cons_append, List.append_assoc, List.singleton_append, ha]
          simp [hne, hback, hpa]
      | obj fs =>
        cases fs with
        | nil =>
          rw [renderVal, renderObj, parseVal.eq_def]
          have h1 : lbrace ≠ 'n' := by decide
          have h2 : lbrace ≠ 't' := by decide
          have h3 : lbrace ≠ 'f' := by decide
          have h4 : lbrace ≠ '"' := by decide
          have h5 : lbrace ≠ '[' := by decide
          simp [h1, h2, h3, h4, h5]
        | cons kv fs2 =>
          obtain ⟨k, v⟩ := kv
          obtain ⟨tl0, ho⟩ := renderObj_cons_head k v fs2
          have hsz2 : jsize.jsizeO ((k, v) :: fs2) < f := by
            rw [jsize] at hsz; omega
          have hpo := IHo ((k, v) :: fs2) rest (by simp) hsz2
          have hback : ('"' : Char) :: (tl0 ++ rbrace :: rest) = renderObj ((k, v) :: fs2) ++ rbrace :: rest := by
            rw [ho]; simp
          have h1 : lbrace ≠ 'n' := by decide
          have h2 : lbrace ≠ 't' := by decide
          have h3 : lbrace ≠ 'f' := by decide
          have h4 : lbrace ≠ '"' := by decide
          have h5 : lbrace ≠ '[' := by decide
          have h6 : ('"' : Char) ≠ rbrace := by decide
          rw [renderVal, parseVal.eq_def]
          simp only [List.cons_append, List.append_assoc, List.singleton_append, ho]
          simp [h1, h2, h3, h4, h5, h6, hback, hpo]
    · intro xs rest hne hsz
      match xs with
      | x :: xs2 =>
      cases xs2 with
      | nil =>
        have hszx : jsize x < f := by
          rw [jsize.jsizeL, jsize.jsizeL] at hsz; omega
        have hv := IHv x (']' :: rest) hszx (by decide : (']' : Char).isDigit = false)
        rw [renderArr, parseArrTail.eq_def]
        simp [hv]
      | cons y ys =>
        have hszx : jsize x < f := by
          have := jsizeL_pos (y :: ys)
          rw [jsize.jsizeL] at hsz; omega
        have hszys : jsize.jsizeL (y :: ys) < f := by
          have := jsize_pos x
          rw [jsize.jsizeL] at hsz; omega
        have hv := IHv x (',' :: (renderArr (y :: ys) ++ ']' :: rest)) hszx
          (by decide : (',' : Char).isDigit = false)
        have hrec := IHa (y :: ys) rest (by simp) hszys
        rw [renderArr, parseArrTail.eq_def]
        · simp only [List.cons_append, List.append_assoc]
          simp [hv, hrec]
        · simp
    · intro fs rest hne hsz
      match fs with
      | (k, v) :: fs2 =>
      have hq : ('"' : Char) = '"' := rfl
      cases fs2 with
      | nil =>
        have hszv : jsize v < f := by
          rw [jsize.jsizeO, jsize.jsizeO] at hsz; omega
        have hrb : rbrace.isDigit = false := by decide
        have hv := IHv v (rbrace :: rest) hszv hrb
        have hcm : rbrace ≠ ',' := by decide
        rw [renderObj, renderStr, parseObjTail.eq_def]
        simp only [List.cons_append, List.append_assoc, List.singleton_append]
        simp [parseStrBody_escape, hv, hcm]
      | cons kv2 fs3 =>
        have hszv : jsize v < f := by
          have := jsizeO_pos (kv2 :: fs3)
          rw [jsize.jsizeO] at hsz; omega
        have hszfs : jsize.jsizeO (kv2 :: fs3) < f := by
          have := jsize_pos v
          rw [jsize.jsizeO] at hsz; omega
        have hv := IHv v (',' :: (renderObj (kv2 :: fs3) ++ rbrace :: rest)) hszv
          (by decide : (',' : Char).isDigit = false)
        have hrec := IHo (kv2 :: fs3) rest (by simp) hszfs
        rw [renderObj, renderStr, parseObjTail.eq_def]
        · simp only [List.cons_append, List.append_assoc, List.singleton_append]
          simp [parseStrBody_escape, hv, hrec]
        · simp
theorem splitLines_line (line : Chars) (hnl : '\n' ∉ line) :
    ∀ rest, splitLines (line ++ '\n' :: rest) = line :: splitLines rest := by
  induction line with
  | nil => intro rest; simp [splitLines]
  | cons c cs ih =>
    intro rest
    have hc : ¬c = '\n' := fun h => hnl (by simp [h])
    have ihr := ih (fun h => hnl (List.mem_cons_of_mem _ h)) rest
    simp [splitLines, hc, ihr]

theorem splitLines_flat (ls : List Chars) (h : ∀ l ∈ ls, '\n' ∉ l) :
    splitLines (ls.flatMap (fun l => l ++ ['\n'])) = ls := by
  induction ls with
  | nil => simp [splitLines]
  | cons l ls ih =>
    have h1 : '\n' ∉ l := h l (by simp)
    have h2 := ih (fun x hx => h x (List.mem_cons_of_mem _ hx))
    simp only [List.flatMap_cons, List.append_assoc, List.singleton_append]
    rw [splitLines_line l h1, h2]

theorem countLines_flat (ls : List Chars) (h : ∀ l ∈ ls, '\n' ∉ l) :
    countLines (ls.flatMap (fun l => l ++ ['\n'])) = ls.length := by
  induction ls with
  | nil => simp [countLines]
  | cons l ls ih =>
    have h1 : '\n' ∉ l := h l (by simp)
    have h2 := ih (fun x hx => h x (List.mem_cons_of_mem _ hx))
    simp only [List.flatMap_cons, countLines, List.count_append] at *
    rw [h2]
    have : l.count '\n' = 0 := List.count_eq_zero.mpr h1
    simp [this, List.count_cons]
    omega
theorem contextRun_eq (p : CtxParams) (c : GarminClient) :
    contextRun p c =
      ([("profile".data, profileVal c)]
        ++ (if sectionActive p .stats then [("today_stats".data, statsVal c)] else [])
        ++ (if sectionActive p .health then [("health".data, healthVal c)] else [])
        ++ (if sectionActive p .training then [("training".data, trainingVal c)] else [])
        ++ (if sectionActive p .weight then [("weight".data, weightVal c)] else [])
        ++ (if sectionActive p .activities then
            [("recent_activities".data, activitiesVal c)] else []),
       allSections.filter (sectionActive p)) := by
  rw [contextRun]
  simp only [sectionActive, allSections, List.filter]
  cases h1 : p.include_stats && focusOk p "stats".data <;>
    cases h2 : p.include_health && focusOk p "health".data <;>
    cases h3 : p.include_training && focusOk p "training".data <;>
    cases h4 : p.include_weight && focusOk p "weight".data <;>
    cases h5 : focusOk p "activities".data <;>
    simp [h1, h2, h3, h4, h5]

theorem context_eq (p : CtxParams) (c : GarminClient) :
    context p c =
      [("profile".data, profileVal c)]
        ++ (if sectionActive p .stats then [("today_stats".data, statsVal c)] else [])
        ++ (if sectionActive p .health then [("health".data, healthVal c)] else [])
        ++ (if sectionActive p .training then [("training".data, trainingVal c)] else [])
        ++ (if sectionActive p .weight then [("weight".data, weightVal c)] else [])
        ++ (if sectionActive p .activities then
            [("recent_activities".data, activitiesVal c)] else []) := by
  rw [context, contextRun_eq]

theorem contextTrace_eq (p : CtxParams) (c : GarminClient) :
    contextTrace p c = allSections.filter (sectionActive p) := by
  rw [contextTrace, contextRun_eq]

theorem getKey_append (a b : Record) (k : Chars) :
    getKey (a ++ b) k =
      match getKey a k with
      | some v => some v
      | none => getKey b k := by
  induction a with
  | nil => simp [getKey]
  | cons kv rest ih =>
    obtain ⟨k', v⟩ := kv
    by_cases h : k' = k <;> simp [getKey, h, ih]

theorem getKey_optPart (b : Bool) (k : Chars) (v : JsonVal) (k' : Chars) :
    getKey (if b then [(k, v)] else []) k' =
      if b then (if k = k' then some v else none) else none := by
  cases b <;> simp [getKey]

theorem match_opt_id {α : Type} (o : Option α) :
    (match o with | some v => some v | none => none) = o := by
  cases o <;> rfl

theorem getKey_context (p : CtxParams) (c : GarminClient) (s : CtxSection) :
    getKey (context p c) s.key =
      if sectionActive p s then some (sectionVal s c) else none := by
  rw [context_eq]
  cases s with
  | profile =>
    simp [getKey_append, getKey_optPart, getKey, CtxSection.key, sectionVal, sectionActive]
  | stats =>
    have n1 := eq_false (show ¬ (("profile".data : Chars) = "today_stats".data) by decide)
    simp [getKey_append, getKey_optPart, getKey, CtxSection.key, sectionVal, n1, match_opt_id]
    cases sectionActive p CtxSection.stats <;> simp
  | health =>
    have n1 := eq_false (show ¬ (("profile".data : Chars) = "health".data) by decide)
    have n2 := eq_false (show ¬ (("today_stats".data : Chars) = "health".data) by decide)
    simp [getKey_append, getKey_optPart, getKey, CtxSection.key, sectionVal, n1, n2, match_opt_id]
    cases sectionActive p CtxSection.health <;> simp
  | training =>
    have n1 := eq_false (show ¬ (("profile".data : Chars) = "training".data) by decide)
    have n2 := eq_false (show ¬ (("today_stats".data : Chars) = "training".data) by decide)
    have n3 := eq_false (show ¬ (("health".data : Chars) = "training".data) by decide)
    simp [getKey_append, getKey_optPart, getKey, CtxSection.key, sectionVal, n1, n2, n3, match_opt_id]
    cases sectionActive p CtxSection.training <;> simp
  | weight =>
    have n1 := eq_false (show ¬ (("profile".data : Chars) = "weight".data) by decide)
    have n2 := eq_false (show ¬ (("today_stats".data : Chars) = "weight".data) by decide)
    have n3 := eq_false (show ¬ (("health".data : Chars) = "weight".data) by decide)
    have n4 := eq_false (show ¬ (("training".data : Chars) = "weight".data) by decide)
    simp [getKey_append, getKey_optPart, getKey, CtxSection.key, sectionVal, n1, n2, n3, n4, match_opt_id]
    cases sectionActive p CtxSection.weight <;> simp
  | activities =>
    have n1 := eq_false (show ¬ (("profile".data : Chars) = "recent_activities".data) by decide)
    have n2 := eq_false
      (show ¬ (("today_stats".data : Chars) = "recent_activities".data) by decide)
    have n3 := eq_false (show ¬ (("health".data : Chars) = "recent_activities".data) by decide)
    have n4 := eq_false (show ¬ (("training".data : Chars) = "recent_activities".data) by decide)
    have n5 := eq_false (show ¬ (("weight".data : Chars) = "recent_activities".data) by decide)
    simp [getKey_append, getKey_optPart, getKey, CtxSection.key, sectionVal, n1, n2, n3, n4, n5, match_opt_id]

theorem sectionVal_congr (c c' : GarminClient) (s : CtxSection) (h : usesSame c c' s) :
    sectionVal s c = sectionVal s c' := by
  cases s with
  | profile =>
    obtain ⟨h1, h2⟩ := h
    simp only [sectionVal, profileVal, h1, h2]
  | stats => simp only [sectionVal, statsVal, show c.get_user_summary = c'.get_user_summary from h]
  | health =>
    obtain ⟨h1, h2, h3, h4⟩ := h
    simp only [sectionVal, healthVal, heartRateVal, sleepVal, bodyBatteryVal, stressVal,
      h1, h2, h3, h4]
  | training =>
    obtain ⟨h1, h2, h3⟩ := h
    simp only [sectionVal, trainingVal, trainingStatusVal, trainingReadinessVal, vo2Entries,
      h1, h2, h3]
  | weight =>
    simp only [sectionVal, weightVal,
      show c.get_body_composition = c'.get_body_composition from h]
  | activities =>
    simp only [sectionVal, activitiesVal, show c.get_activities = c'.get_activities from h]

theorem sectionVal_fail (c : GarminClient) (s : CtxSection) (h : sectionFails c s) :
    sectionVal s c = failVal s := by
  cases s with
  | profile => simp [sectionVal, profileVal, show c.get_user_profile = .error () from h, failVal]
  | stats => simp [sectionVal, statsVal, show c.get_user_summary = .error () from h, failVal]
  | health =>
    obtain ⟨h1, h2, h3, h4⟩ := h
    simp [sectionVal, healthVal, heartRateVal, sleepVal, bodyBatteryVal, stressVal,
      h1, h2, h3, h4, failVal]
  | training =>
    obtain ⟨h1, h2, h3⟩ := h
    simp [sectionVal, trainingVal, trainingStatusVal, trainingReadinessVal, vo2Entries,
      h1, h2, h3, failVal]
  | weight =>
    simp [sectionVal, weightVal, show c.get_body_composition = .error () from h, failVal]
  | activities =>
    simp [sectionVal, activitiesVal, show c.get_activities = .error () from h, failVal]

theorem count_filter_of_nodup {α : Type} [DecidableEq α] :
    ∀ (l : List α), l.Nodup → ∀ (q : α → Bool) (a : α), a ∈ l →
      (l.filter q).count a = if q a then 1 else 0 := by
  intro l
  induction l with
  | nil => intro _ q a ha; simp at ha
  | cons x xs ih =>
    intro hnd q a ha
    have hx : x ∉ xs := (List.nodup_cons.mp hnd).1
    have hnd2 : xs.Nodup := (List.nodup_cons.mp hnd).2
    rcases List.mem_cons.mp ha with rfl | hmem
    · have hzero : (xs.filter q).count a = 0 :=
        List.count_eq_zero.mpr (fun hc => hx (List.mem_of_mem_filter hc))
      cases hq : q a <;> simp [List.filter_cons, hq, List.count_cons, hzero]
    · have hne : a ≠ x := fun he => hx (he ▸ hmem)
      have := ih hnd2 q a hmem
      cases hq : q x <;> simp [List.filter_cons, hq, List.count_cons, this, hne]
theorem selectFields_keys (fs : List Chars) (r : Record) :
    (selectFields (some fs) r).map Prod.fst = fs.filter (fun k => (getKey r k).isSome) := by
  induction fs with
  | nil => simp [selectFields]
  | cons k0 fs ih =>
    simp only [selectFields] at ih ⊢
    cases h : getKey r k0 <;> simp [List.filterMap_cons, h, ih]

set_option synthInstance.maxHeartbeats 400000 in
theorem getKey_isSome_iff (r : Record) (k : Chars) :
    (getKey r k).isSome = true ↔ k ∈ r.map Prod.fst := by
  induction r with
  | nil => simp [getKey]
  | cons kv rest ih =>
    obtain ⟨k', v⟩ := kv
    by_cases h : k' = k
    · subst h
      simp [getKey]
    · have h' : ¬ k = k' := fun he => h he.symm
      simp only [getKey, if_neg h, List.map_cons, List.mem_cons]
      rw [ih]
      simp [h']

theorem getKey_selectFields (fs : List Chars) (r : Record) (k : Chars) :
    getKey (selectFields (some fs) r) k = if k ∈ fs then getKey r k else none := by
  induction fs with
  | nil => simp [selectFields, getKey]
  | cons k0 fs ih =>
    simp only [selectFields] at ih ⊢
    by_cases hk : k0 = k
    · subst hk
      cases h : getKey r k0 with
      | none => simp [List.filterMap_cons, h, ih]
      | some v => simp [List.filterMap_cons, h, getKey]
    · have hk' : ¬ k = k0 := fun he => hk he.symm
      cases h : getKey r k0 with
      | none => simp [List.filterMap_cons, h, ih, hk']
      | some v => simp [List.filterMap_cons, h, getKey, hk, ih, hk']

theorem selectFields_of_absent :
    ∀ (gs : List Chars) (r : Record), (∀ k ∈ gs, getKey r k = none) →
      selectFields (some gs) r = [] := by
  intro gs r
  induction gs with
  | nil => intro _; simp [selectFields]
  | cons k0 gs ih =>
    intro h
    have h0 := h k0 (by simp)
    have hrest := ih (fun k hk => h k (List.mem_cons_of_mem _ hk))
    simp only [selectFields, List.filterMap_cons, h0, Option.map_none] at hrest ⊢
    exact hrest

theorem tsvEsc_no_nl (s : Chars) : '\n' ∉ tsvEsc s := by
  intro h
  have := List.of_mem_filter h
  simp at this

theorem joinSep_no_nl (sep : Char) (hsep : sep ≠ '\n') :
    ∀ ls : List Chars, (∀ l ∈ ls, '\n' ∉ l) → '\n' ∉ joinSep sep ls := by
  intro ls
  induction ls with
  | nil => intro _; simp [joinSep]
  | cons x xs ih =>
    intro h
    cases xs with
    | nil => simpa [joinSep] using h x (by simp)
    | cons y ys =>
      intro hmem
      simp only [joinSep, List.mem_append, List.mem_cons] at hmem
      have h1 := h x (by simp)
      have h2 : ('\n' : Char) ≠ sep := fun he => hsep he.symm
      have h3 := ih (fun z hz => h z (List.mem_cons_of_mem _ hz))
      tauto
theorem roundtrip_closed (v : JsonVal) :
    parseVal (jsize v + 1) (renderVal v) = some (v, []) := by
  have h := (parse_render (jsize v + 1)).1 v [] (by omega) trivial
  rwa [List.append_nil] at h

theorem countLines_rows (ls : List Chars) (h : ∀ l ∈ ls, '\n' ∉ l) :
    countLines (ls.flatMap (fun l => l ++ ['\n'])) = ls.length :=
  countLines_flat ls h

theorem tsvRows_no_nl (rs : RecordSet) (F : Option (List Chars)) (noHeader : Bool) :
    ∀ l ∈ tsvRows rs F noHeader, '\n' ∉ l := by
  intro l hl
  simp only [tsvRows, List.mem_append, List.mem_map] at hl
  rcases hl with hl | ⟨r, _, rfl⟩
  · have : l = joinSep '\t' ((colsOf F (recsOf rs)).map tsvEsc) := by
      revert hl; cases noHeader <;> simp
    subst this
    refine joinSep_no_nl '\t' (by decide) _ ?_
    intro x hx
    simp only [List.mem_map] at hx
    obtain ⟨k, _, rfl⟩ := hx
    exact tsvEsc_no_nl k
  · refine joinSep_no_nl '\t' (by decide) _ ?_
    intro x hx
    simp only [List.mem_map] at hx
    obtain ⟨k, _, rfl⟩ := hx
    exact tsvEsc_no_nl (cellOf r k)

/-- C1: a section's entry in the CompositeResult depends only on that
section's own fetches, so forcing any other section's fetch to raise
leaves it exactly as it would have been; no exception escapes the
command, which is total by construction. -/
theorem c1_section_isolation (p : CtxParams) (c c' : GarminClient) (s : CtxSection)
    (h : usesSame c c' s) :
    getKey (context p c) s.key = getKey (context p c') s.key := by
  rw [getKey_context, getKey_context, sectionVal_congr c c' s h]

theorem c1_section_isolation_witness :
    usesSame errClient client2 .health ∧
      getKey (context pAll errClient) (CtxSection.key .health) =
        getKey (context pAll client2) (CtxSection.key .health) :=
  ⟨⟨rfl, rfl, rfl, rfl⟩,
   c1_section_isolation pAll errClient client2 .health ⟨rfl, rfl, rfl, rfl⟩⟩

/-- C2 counterexample: with every fetch raising, the attempted
recent_activities section records the empty list, not null, so "the
CompositeResult maps that section's key to null (… not to an empty list)"
is false at this input. -/
theorem c2_null_on_failure_cex :
    getKey (context pAll errClient) ("recent_activities".data) = some (.arr []) ∧
      JsonVal.arr [] ≠ JsonVal.null :=
  ⟨rfl, fun h => JsonVal.noConfusion h⟩

/-- C2 (amended): once attempted, a section whose fetches all raise is
still recorded under its key, but the recorded value is null only for the
profile and stats sections; health, training and weight record a Record
whose fields are null, and recent_activities records the empty list. -/
theorem c2_failure_value (p : CtxParams) (c : GarminClient) (s : CtxSection)
    (h : sectionFails c s) :
    getKey (context p c) s.key =
      if sectionActive p s then some (failVal s) else none := by
  rw [getKey_context, sectionVal_fail c s h]

theorem c2_failure_value_witness :
    sectionFails errClient .weight ∧
      getKey (context pAll errClient) (CtxSection.key .weight) =
        (if sectionActive pAll .weight then some (failVal .weight) else none) :=
  ⟨rfl, c2_failure_value pAll errClient .weight rfl⟩

/-- C3 counterexample: with focus naming only "stats" and the stats
enable flag off, the run still attempts (and keys) the profile section,
which was not named, and does not attempt the stats section, which was
named — so the attempted set is not "exactly the named subset" and a
named section is not active when its flag is off. -/
theorem c3_focus_exact_cex :
    (context pFocusStats errClient).map Prod.fst = ["profile".data] ∧
      ("today_stats".data : Chars) ∉ (context pFocusStats errClient).map Prod.fst ∧
      ("profile".data : Chars) ∈ (context pFocusStats errClient).map Prod.fst := by
  have h : (context pFocusStats errClient).map Prod.fst = ["profile".data] := rfl
  refine ⟨h, ?_, ?_⟩
  · rw [h]; decide
  · rw [h]; decide

/-- C3 (amended): the attempted sections (and hence the top-level keys,
in order) are exactly those the code's gates admit: the profile always;
each flag-gated section iff its enable flag is on and, when a focus
restriction is supplied, its name is in the focus set; the activities
section iff the focus admits it (it has no enable flag).  An unrecognized
focus name matches no section and causes no error (the run is total). -/
theorem c3_active_sections (p : CtxParams) (c : GarminClient) :
    (context p c).map Prod.fst =
      (allSections.filter (sectionActive p)).map CtxSection.key := by
  rw [context_eq]
  simp only [allSections, List.filter]
  cases h1 : sectionActive p .stats <;> cases h2 : sectionActive p .health <;>
    cases h3 : sectionActive p .training <;> cases h4 : sectionActive p .weight <;>
    cases h5 : sectionActive p .activities <;>
    simp [h1, h2, h3, h4, h5, CtxSection.key, sectionActive]

/-- C8: one run attempts each enabled section exactly once and each
disabled section never, strictly in declaration order: the trace of
attempted sections is precisely the declaration-ordered section list
filtered by the enabledness predicate. -/
theorem c8_single_pass (p : CtxParams) (c : GarminClient) :
    contextTrace p c = allSections.filter (sectionActive p) ∧
      (∀ s : CtxSection, (contextTrace p c).count s =
        if sectionActive p s then 1 else 0) ∧
      List.Sublist (contextTrace p c) allSections := by
  have ht := contextTrace_eq p c
  refine ⟨ht, ?_, ?_⟩
  · intro s
    rw [ht]
    exact count_filter_of_nodup allSections (by decide) (sectionActive p) s
      (by cases s <;> decide)
  · rw [ht]
    exact List.filter_sublist _

/-- C4: a mutation command's emitted output is exactly the human summary
string (and nothing of the payload) when the active format is human, and
exactly the rendered structured payload (with the summary string playing
no part) for each of the other four formats. -/
theorem c4_mutation_dual_output (st : CliState) (payload : RecordSet) (msg : Chars) :
    emit_result st payload msg =
      if st.format = OutputFormat.human then msg
      else output st.format st.fields st.no_header payload := by
  cases hf : st.format <;> simp [emit_result, output, hf]

/-- C5: projecting any RecordSet (sequence or single) with any field
selector and re-parsing the json output recovers exactly the
field-filtered records; with no selector every key is kept; with a
selector each projected record's key set is exactly the selector
intersected with the keys present in that record; selected values are
passed through untouched (selection never recurses into nested
structures); and selecting only absent fields is not an error — it
yields an empty record. -/
theorem c5_field_selection (F : Option (List Chars)) (fs : List Chars) (rs : List Record)
    (r : Record) (k : Chars) :
    parseVal (jsize (toVal F (.many rs)) + 1) (outputJson (.many rs) F) =
        some (toVal F (.many rs), []) ∧
      parseVal (jsize (toVal F (.single r)) + 1) (outputJson (.single r) F) =
        some (toVal F (.single r), []) ∧
      selectFields none r = r ∧
      (selectFields (some fs) r).map Prod.fst =
        fs.filter (fun k' => (getKey r k').isSome) ∧
      ((k ∈ (selectFields (some fs) r).map Prod.fst) ↔ (k ∈ fs ∧ k ∈ r.map Prod.fst)) ∧
      getKey (selectFields (some fs) r) k = (if k ∈ fs then getKey r k else none) ∧
      selectFields (some (fs.filter (fun k' => (getKey r k').isNone))) r = [] := by
  refine ⟨roundtrip_closed _, roundtrip_closed _, rfl, selectFields_keys fs r, ?_,
    getKey_selectFields fs r k, ?_⟩
  · rw [selectFields_keys fs r]
    simp only [List.mem_filter]
    rw [getKey_isSome_iff]
  · refine selectFields_of_absent _ r ?_
    intro k' hk'
    have := (List.mem_filter.mp hk').2
    simpa [Option.isNone_iff_eq_none] using this

/-- C6: jsonl output of a sequence of N records is exactly N lines, the
i-th line being the compact rendering of the i-th field-filtered record
and re-parsing to exactly that record with nothing left over; a single
Record yields exactly one line. -/
theorem c6_jsonl_lines (F : Option (List Chars)) (rs : List Record) (r : Record) :
    splitLines (outputJsonl (.many rs) F) = jsonlLines (.many rs) F ∧
      (splitLines (outputJsonl (.many rs) F)).length = rs.length ∧
      List.Forall₂ (fun line rec =>
          parseVal (jsize (JsonVal.obj (selectFields F rec)) + 1) line =
            some (JsonVal.obj (selectFields F rec), []))
        (splitLines (outputJsonl (.many rs) F)) rs ∧
      splitLines (outputJsonl (.single r) F) = [renderVal (.obj (selectFields F r))] := by
  have hnl : ∀ (rset : RecordSet), ∀ l ∈ jsonlLines rset F, '\n' ∉ l := by
    intro rset l hl
    simp only [jsonlLines, List.mem_map] at hl
    obtain ⟨rec, _, rfl⟩ := hl
    exact renderVal_no_nl _
  have h1 : splitLines (outputJsonl (.many rs) F) = jsonlLines (.many rs) F :=
    splitLines_flat _ (hnl _)
  have hfa : ∀ rs2 : List Record,
      List.Forall₂ (fun line rec =>
          parseVal (jsize (JsonVal.obj (selectFields F rec)) + 1) line =
            some (JsonVal.obj (selectFields F rec), []))
        (rs2.map (fun rec => renderVal (JsonVal.obj (selectFields F rec)))) rs2 := by
    intro rs2
    induction rs2 with
    | nil => exact List.Forall₂.nil
    | cons rec rs2 ih => exact List.Forall₂.cons (roundtrip_closed _) ih
  refine ⟨h1, ?_, ?_, ?_⟩
  · rw [h1]; simp [jsonlLines, recsOf]
  · rw [h1]
    simp only [jsonlLines, recsOf]
    exact hfa rs
  · have h2 : splitLines (outputJsonl (.single r) F) = jsonlLines (.single r) F :=
      splitLines_flat _ (hnl _)
    rw [h2]
    simp [jsonlLines, recsOf]

/-- C7 counterexample: a csv cell containing an embedded newline is
quoted, so its row spans two physical lines: one record with header
requested yields three output lines, not the claimed N + 1 = 2. -/
theorem c7_line_count_cex :
    countLines
        (outputCsv (.many [[("a".data, JsonVal.str ('x' :: '\n' :: 'y' :: []))]]) none false)
      ≠ 1 + 1 := by
  decide

/-- C7 (amended): tsv output always has exactly N + 1 lines with the
header and N without (tabs and newlines are stripped from cells); csv
output has exactly N + 1 (or N) lines provided no emitted cell or column
name contains an embedded newline — a newline-carrying cell is quoted
and its row spans additional physical lines.  An empty RecordSet yields
only the header row, or nothing when suppressed. -/
theorem c7_tabular_line_count (rs : RecordSet) (F : Option (List Chars)) (noHeader : Bool) :
    countLines (outputTsv rs F noHeader) =
        (if noHeader then 0 else 1) + (recsOf rs).length ∧
      ((∀ r ∈ recsOf rs, ∀ k ∈ colsOf F (recsOf rs), '\n' ∉ csvEsc (cellOf r k)) →
        (∀ k ∈ colsOf F (recsOf rs), '\n' ∉ csvEsc k) →
        countLines (outputCsv rs F noHeader) =
          (if noHeader then 0 else 1) + (recsOf rs).length) := by
  constructor
  · rw [outputTsv, countLines_rows _ (tsvRows_no_nl rs F noHeader)]
    cases noHeader <;> simp [tsvRows, Nat.add_comm]
  · intro hcell hhead
    have hrows : ∀ l ∈ csvRows rs F noHeader, '\n' ∉ l := by
      intro l hl
      simp only [csvRows, List.mem_append, List.mem_map] at hl
      rcases hl with hl | ⟨r, hr, rfl⟩
      · have : l = joinSep ',' ((colsOf F (recsOf rs)).map csvEsc) := by
          revert hl; cases noHeader <;> simp
        subst this
        refine joinSep_no_nl ',' (by decide) _ ?_
        intro x hx
        simp only [List.mem_map] at hx
        obtain ⟨k, hk, rfl⟩ := hx
        exact hhead k hk
      · refine joinSep_no_nl ',' (by decide) _ ?_
        intro x hx
        simp only [List.mem_map] at hx
        obtain ⟨k, hk, rfl⟩ := hx
        exact hcell r hr k hk
    rw [outputCsv, countLines_rows _ hrows]
    cases noHeader <;> simp [csvRows, Nat.add_comm]

theorem c7_tabular_line_count_witness :
    (∀ r ∈ recsOf (.many [[("a".data, JsonVal.num 1)]]),
      ∀ k ∈ colsOf none (recsOf (.many [[("a".data, JsonVal.num 1)]])),
        '\n' ∉ csvEsc (cellOf r k)) ∧
    (∀ k ∈ colsOf none (recsOf (.many [[("a".data, JsonVal.num 1)]])), '\n' ∉ csvEsc k) ∧
    (countLines (outputTsv (.many [[("a".data, JsonVal.num 1)]]) none false) =
        (if false then 0 else 1) + (recsOf (.many [[("a".data, JsonVal.num 1)]])).length ∧
      countLines (outputCsv (.many [[("a".data, JsonVal.num 1)]]) none false) =
        (if false then 0 else 1) + (recsOf (.many [[("a".data, JsonVal.num 1)]])).length) :=
  ⟨by decide, by decide,
   (c7_tabular_line_count (.many [[("a".data, JsonVal.num 1)]]) none false).1,
   (c7_tabular_line_count (.many [[("a".data, JsonVal.num 1)]]) none false).2
     (by decide) (by decide)⟩

/-- C9: projection is a deterministic function of the RecordSet and the
three output options (format, fields, header flag): two states agreeing
on those options render byte-identical output whatever their other
fields; a render leaves the global state unchanged, so a second render
of the same inputs is byte-identical to the first. -/
theorem c9_projection_deterministic (st st' : CliState) (rs : RecordSet)
    (hf : st.format = st'.format) (hfs : st.fields = st'.fields)
    (hh : st.no_header = st'.no_header) :
    (emit st rs).1 = (emit st' rs).1 ∧
      (emit st rs).2 = st ∧
      (emit (emit st rs).2 rs).1 = (emit st rs).1 := by
  refine ⟨?_, rfl, rfl⟩
  simp [emit, hf, hfs, hh]

theorem c9_projection_deterministic_witness :
    ((⟨.json, none, false, false, false, none, none⟩ : CliState).format =
        (⟨.json, none, false, true, true, some [], some []⟩ : CliState).format ∧
      (⟨.json, none, false, false, false, none, none⟩ : CliState).fields =
        (⟨.json, none, false, true, true, some [], some []⟩ : CliState).fields ∧
      (⟨.json, none, false, false, false, none, none⟩ : CliState).no_header =
        (⟨.json, none, false, true, true, some [], some []⟩ : CliState).no_header) ∧
    ((emit ⟨.json, none, false, false, false, none, none⟩ (.many [])).1 =
        (emit ⟨.json, none, false, true, true, some [], some []⟩ (.many [])).1 ∧
      (emit ⟨.json, none, false, false, false, none, none⟩ (.many [])).2 =
        ⟨.json, none, false, false, false, none, none⟩ ∧
      (emit (emit ⟨.json, none, false, false, false, none, none⟩ (.many [])).2 (.many [])).1 =
        (emit ⟨.json, none, false, false, false, none, none⟩ (.many [])).1) :=
  ⟨⟨rfl, rfl, rfl⟩,
   c9_projection_deterministic _ _ (.many []) rfl rfl rfl⟩

/-- C10: each delete command run without --force whose confirmation
prompt is declined aborts: the external delete operation is never
invoked and no result is emitted. -/
theorem c10_delete_confirmation (st : CliState) (aid pk : Int) (d : Chars) :
    (delete_activity st aid false false).aborted = true ∧
      (delete_activity st aid false false).deleteInvoked = false ∧
      (delete_activity st aid false false).emitted = none ∧
      (delete_weight st pk false false).aborted = true ∧
      (delete_weight st pk false false).deleteInvoked = false ∧
      (delete_weight st pk false false).emitted = none ∧
      (delete_weights_for_date st d false false).aborted = true ∧
      (delete_weights_for_date st d false false).deleteInvoked = false ∧
      (delete_weights_for_date st d false false).emitted = none := by
  simp [delete_activity, delete_weight, delete_weights_for_date]
end GCli
